import Mathlib

/-!
Verification development for the budget-tracker application
(src/budget_tracker.py).  The transaction log is modelled as a list of
well-formed seven-field rows; the `Amount` column, stored as text and read
back with the Python float() call, is abstracted to an exact rational number.
Each definition mirrors the Python routine named in its doc comment.
-/

namespace BudgetTracker

/-- One persisted transaction row, columns in file order
[Date, Type, Category, Description, Amount, User, Notes]
(see create_default_files / add_transaction). -/
structure Row where
  date : String
  type : String
  category : String
  description : String
  amount : ℚ
  user : String
  notes : String
deriving DecidableEq, Repr

/-- Python str.lower() on the ASCII data the tracker handles. -/
def lower (s : String) : String := String.mk (s.data.map Char.toLower)

/-- Lexicographic strict comparison of character lists by code point,
the Python string <. -/
def charListLt : List Char → List Char → Bool
  | [], [] => false
  | [], _ :: _ => true
  | _ :: _, [] => false
  | a :: as, b :: bs =>
    if a.toNat < b.toNat then true
    else if b.toNat < a.toNat then false
    else charListLt as bs

/-- Python string comparison s < t. -/
def strLt (s t : String) : Bool := charListLt s.data t.data

/-- Python str.startswith: p is a prefix of s. -/
def listStarts : List Char → List Char → Bool
  | [], _ => true
  | _ :: _, [] => false
  | a :: ps, b :: ss => a == b && listStarts ps ss

/-- Python `p in s` restricted to prefixes: startswith. -/
def strStarts (p s : String) : Bool := listStarts p.data s.data

/-- Python substring containment `needle in hay`. -/
def strContains (hay needle : String) : Bool :=
  (List.range (hay.data.length + 1)).any
    (fun i => listStarts needle.data (hay.data.drop i))

/-- Split a character list at '-' separators (for date parsing). -/
def splitDash : List Char → List (List Char)
  | [] => [[]]
  | c :: cs =>
    match splitDash cs with
    | [] => [[]]
    | g :: gs => if c == '-' then [] :: g :: gs else (c :: g) :: gs

/-- Decimal value of a digit list. -/
def digitsToNat (l : List Char) : Nat :=
  l.foldl (fun acc c => 10 * acc + (c.toNat - 48)) 0

def allDigits (l : List Char) : Bool := l.all Char.isDigit

/-- Gregorian leap year, as the Python datetime module uses. -/
def isLeap (y : Nat) : Bool := y % 4 == 0 && (y % 100 != 0 || y % 400 == 0)

/-- Length of a month, as the Python datetime module validates days. -/
def daysInMonth (y m : Nat) : Nat :=
  if m == 2 then (if isLeap y then 29 else 28)
  else if m == 4 || m == 6 || m == 9 || m == 11 then 30 else 31

/-- datetime.strptime with format %Y-%m-%d: four-digit year, one- or two-digit
month and day, whole string consumed, then calendar validation by the
datetime constructor (year at least 1, day within the month). -/
def parseDate (s : String) : Option (Nat × Nat × Nat) :=
  match splitDash s.data with
  | [ys, ms, ds] =>
    if ys.length == 4 && allDigits ys &&
       (ms.length == 1 || ms.length == 2) && allDigits ms &&
       (ds.length == 1 || ds.length == 2) && allDigits ds then
      let y := digitsToNat ys
      let m := digitsToNat ms
      let d := digitsToNat ds
      if 1 ≤ y && 1 ≤ m && m ≤ 12 && 1 ≤ d && d ≤ daysInMonth y m then
        some (y, m, d)
      else none
    else none
  | _ => none

/-- datetime comparison: strict lexicographic order on (year, month, day). -/
def tripleLt (a b : Nat × Nat × Nat) : Bool :=
  decide (a.1 < b.1) ||
  (a.1 == b.1 && (decide (a.2.1 < b.2.1) ||
    (a.2.1 == b.2.1 && decide (a.2.2 < b.2.2))))

/-- Lexicographic order on (year, month, day), non-strict. -/
def tripleLe (a b : Nat × Nat × Nat) : Bool := a == b || tripleLt a b

/-- The date gate of load_transactions: the row date must parse; a
non-empty lower bound must parse and not exceed it; a non-empty upper
bound must parse and not be below it (a parse failure anywhere skips the
row via the except-ValueError-continue). -/
def passesDateFilter (dateFrom dateTo d : String) : Bool :=
  match parseDate d with
  | none => false
  | some td =>
    (dateFrom == "" ||
      (match parseDate dateFrom with
       | none => false
       | some fd => !tripleLt td fd)) &&
    (dateTo == "" ||
      (match parseDate dateTo with
       | none => false
       | some toD => !tripleLt toD td))

/-- The row filter of load_transactions: owner match, case-insensitive
substring search over the description, type filter (moot when "All"),
then the date gate. -/
def rowPasses (user searchText typeFilter dateFrom dateTo : String)
    (r : Row) : Bool :=
  r.user == user &&
  (lower searchText == "" || strContains (lower r.description) (lower searchText)) &&
  (typeFilter == "All" || lower r.type == lower typeFilter) &&
  passesDateFilter dateFrom dateTo r.date

/-- Stable insertion step for the Python list.sort with the date key and
reverse=True:
a row from earlier in the file goes in front of x unless its date string
is strictly smaller. -/
def insertRowDesc (a : Row) : List Row → List Row
  | [] => [a]
  | x :: xs =>
    if strLt a.date x.date then x :: insertRowDesc a xs else a :: x :: xs

/-- Stable sort by date string, newest (largest string) first. -/
def sortRowsDesc : List Row → List Row
  | [] => []
  | a :: l => insertRowDesc a (sortRowsDesc l)

/-- load_transactions: keep the rows passing every filter, then sort by
the date string descending (stable). -/
def loadTransactions (user searchText typeFilter dateFrom dateTo : String)
    (log : List Row) : List Row :=
  sortRowsDesc (log.filter (rowPasses user searchText typeFilter dateFrom dateTo))

/-- The matcher of delete_transaction: the stored row agrees with the
selected row on date, type, category, description, and numerically on
amount (float(row[4]) == float(selected[4])); the user and notes columns
are not compared. -/
def deleteMatches (sel r : Row) : Bool :=
  r.date == sel.date && r.type == sel.type && r.category == sel.category &&
  r.description == sel.description && r.amount == sel.amount

/-- The rewrite loop of delete_transaction: walk the file in order, appending
every row the matcher rejects. -/
def deleteTransaction (sel : Row) (log : List Row) : List Row :=
  log.foldl (fun acc r => if deleteMatches sel r then acc else acc ++ [r]) []

/-- One line of the exported CSV below the header: the first six columns
of a stored row (row[:6] in export_csv), so the sixth value is the user column of the row even though the header labels it Notes. -/
structure ExportRow where
  date : String
  type : String
  category : String
  description : String
  amount : ℚ
  sixth : String
deriving DecidableEq, Repr

/-- The header line export_csv writes. -/
def exportHeader : List String :=
  ["Date", "Type", "Category", "Description", "Amount", "Notes"]

/-- export_csv: the rows of the current user, in file order, truncated to
their first six columns. -/
def exportCSV (user : String) (log : List Row) : List ExportRow :=
  (log.filter (fun r => r.user == user)).map
    (fun r => ⟨r.date, r.type, r.category, r.description, r.amount, r.user⟩)

/-- import_data: each input line (all exported lines have the required
five columns) becomes a row stamped with the current user, the sixth
input value read back as the notes column; these rows are appended to
the log and their count reported. -/
def importData (user : String) (rows : List ExportRow) : List Row :=
  rows.map (fun e => ⟨e.date, e.type, e.category, e.description, e.amount, user, e.sixth⟩)

/-- One step of the update_balance_cards loop: an owner row adds its amount
to the income total when its lowered type is "income", and otherwise to
the expense total. -/
def balanceStep (user : String) (acc : ℚ × ℚ) (r : Row) : ℚ × ℚ :=
  if r.user == user then
    if lower r.type == "income" then (acc.1 + r.amount, acc.2)
    else (acc.1, acc.2 + r.amount)
  else acc

/-- update_balance_cards: (income total, expense total, balance). -/
def balanceCards (user : String) (log : List Row) : ℚ × ℚ × ℚ :=
  let t := log.foldl (balanceStep user) (0, 0)
  (t.1, t.2, t.1 - t.2)

/-- Accumulation into the defaultdict(float) category_totals: a new key
is appended at the end, the value of an existing key grows in place. -/
def addToTotals (k : String) (v : ℚ) : List (String × ℚ) → List (String × ℚ)
  | [] => [(k, v)]
  | (k2, v2) :: rest =>
    if k2 == k then (k2, v2 + v) :: rest else (k2, v2) :: addToTotals k v rest

/-- Value of a key in an association list, 0 when absent
(defaultdict/.get(category, 0)). -/
def lookupTotal (k : String) : List (String × ℚ) → ℚ
  | [] => 0
  | (k2, v) :: rest => if k2 == k then v else lookupTotal k rest

/-- The loop state of update_quick_stats. -/
structure StatsAcc where
  totalTransactions : Nat
  totalExpense : ℚ
  expenseCount : Nat
  categoryTotals : List (String × ℚ)
  monthlyTotal : ℚ
deriving Repr

/-- One iteration of the update_quick_stats loop over an owner row: count
it; when its date string starts with the current year-month and it is an
expense, add the amount to the monthly total; when it is an expense, add
to the expense total, count and category totals. -/
def statsStep (user currentMonth : String) (acc : StatsAcc) (r : Row) : StatsAcc :=
  if r.user == user then
    let acc1 := { acc with totalTransactions := acc.totalTransactions + 1 }
    let acc2 :=
      if strStarts currentMonth r.date && lower r.type == "expense" then
        { acc1 with monthlyTotal := acc1.monthlyTotal + r.amount }
      else acc1
    if lower r.type == "expense" then
      { acc2 with
        totalExpense := acc2.totalExpense + r.amount
        expenseCount := acc2.expenseCount + 1
        categoryTotals := addToTotals r.category r.amount acc2.categoryTotals }
    else acc2
  else acc

/-- The aggregation pass of update_quick_stats. -/
def quickStats (user currentMonth : String) (log : List Row) : StatsAcc :=
  log.foldl (statsStep user currentMonth) ⟨0, 0, 0, [], 0⟩

/-- avg_expense = total_expense / expense_count if expense_count > 0 else 0. -/
def avgExpense (user currentMonth : String) (log : List Row) : ℚ :=
  let s := quickStats user currentMonth log
  if 0 < s.expenseCount then s.totalExpense / s.expenseCount else 0

/-- The Python max over category_totals keyed by the totals: scan the keys
in insertion order keeping the first one whose value every later value
fails to strictly exceed. -/
def maxGo (best : String) (bv : ℚ) : List (String × ℚ) → String
  | [] => best
  | (k, v) :: rest => if bv < v then maxGo k v rest else maxGo best bv rest

/-- top_category: first-encountered key of maximum value, "None" when no
expense was seen. -/
def topCategory (user currentMonth : String) (log : List Row) : String :=
  match (quickStats user currentMonth log).categoryTotals with
  | [] => "None"
  | (k, v) :: rest => maxGo k v rest

/-- The actual_spending pass shared by update_budget_progress and
create_budget_performance_chart: per-category sums of the expense
amounts of the owner, keys in first-encounter order. -/
def actualSpending (user : String) (log : List Row) : List (String × ℚ) :=
  log.foldl
    (fun acc r =>
      if r.user == user && lower r.type == "expense" then
        addToTotals r.category r.amount acc
      else acc)
    []

/-- update_budget_progress: percentage = min(spent/budget*100, 100) if
budget_amount > 0 else 0. -/
def budgetPercentage (spent budget : ℚ) : ℚ :=
  if 0 < budget then min (spent / budget * 100) 100 else 0

/-- update_budget_progress: for each budgeted category in order, the
category, its limit, the spent amount (0 when never spent on) and the
clamped display percentage. -/
def budgetProgress (user : String) (log : List Row)
    (budgets : List (String × ℚ)) : List (String × ℚ × ℚ × ℚ) :=
  budgets.map (fun p =>
    let spent := lookupTotal p.1 (actualSpending user log)
    (p.1, p.2, spent, budgetPercentage spent p.2))

/-- The Actual bar heights of create_budget_performance_chart: the raw
unclamped spending per budgeted category, in budget order. -/
def chartActualAmounts (user : String) (log : List Row)
    (budgets : List (String × ℚ)) : List ℚ :=
  budgets.map (fun p => lookupTotal p.1 (actualSpending user log))

/-! Specification-side values, written from the wording of the spec: plain
filters and sums over the log, used to state the claims against the
loop-shaped definitions above. -/

/-- A record of the owner whose lowered kind is "income". -/
def isOwnerIncome (user : String) (r : Row) : Bool :=
  r.user == user && lower r.type == "income"

/-- A record of the owner whose lowered kind is "expense". -/
def isOwnerExpense (user : String) (r : Row) : Bool :=
  r.user == user && lower r.type == "expense"

/-- Spec total income: sum of amounts of the income records of the owner. -/
def specIncomeTotal (user : String) (log : List Row) : ℚ :=
  ((log.filter (isOwnerIncome user)).map Row.amount).sum

/-- Spec total expense: sum of amounts of the expense records of the owner. -/
def specExpenseTotal (user : String) (log : List Row) : ℚ :=
  ((log.filter (isOwnerExpense user)).map Row.amount).sum

/-- Spec count of the expense records of the owner. -/
def specExpenseCount (user : String) (log : List Row) : Nat :=
  (log.filter (isOwnerExpense user)).length

/-- Spec sum of the expense amounts of the owner in one category. -/
def specCatSum (user cat : String) (log : List Row) : ℚ :=
  ((log.filter (fun r => isOwnerExpense user r && r.category == cat)).map Row.amount).sum

/-- Spec current-month expense total as the code computes the month
test: the date string starts with the current year-month. -/
def specMonthlyTotal (user currentMonth : String) (log : List Row) : ℚ :=
  ((log.filter (fun r => r.user == user && strStarts currentMonth r.date &&
      lower r.type == "expense")).map Row.amount).sum

/-- Spec date-range membership, from the words of the claim: the record
date lies in [from, to] inclusive, an empty bound imposing no
restriction on its side. -/
def specInRange (dateFrom dateTo d : String) : Bool :=
  (dateFrom == "" ||
    (match parseDate dateFrom, parseDate d with
     | some f, some x => tripleLe f x
     | _, _ => false)) &&
  (dateTo == "" ||
    (match parseDate dateTo, parseDate d with
     | some t, some x => tripleLe x t
     | _, _ => false))

/-- Spec first-encounter order: the distinct categories of the expense
records of the owner, in the order their first record appears in the file. -/
def specCatOrder (user : String) (log : List Row) : List String :=
  log.foldl
    (fun ks r =>
      if isOwnerExpense user r then
        (if ks.contains r.category then ks else ks ++ [r.category])
      else ks)
    []

/-- The five exported and re-imported fields of a record. -/
def quint (r : Row) : String × String × String × String × ℚ :=
  (r.date, r.type, r.category, r.description, r.amount)

/-! Concrete data for the scenarios of the spec. -/

/-- The income record of the two-record totals scenario of the spec. -/
def demoIncomeRow : Row := ⟨"2024-01-15", "income", "Salary", "pay", 3500, "demo", ""⟩

/-- The expense record of the two-record totals scenario of the spec. -/
def demoExpenseRow : Row := ⟨"2024-01-16", "expense", "Food", "grocery", 85.5, "demo", ""⟩

/-- The two-record demo log of the totals scenario of the spec. -/
def demoLog : List Row := [demoIncomeRow, demoExpenseRow]

/-- Two categories A and B, each with one 50.00 expense, inserted in order. -/
def tieLog : List Row :=
  [⟨"2024-01-10", "expense", "A", "a", 50, "demo", ""⟩,
   ⟨"2024-01-11", "expense", "B", "b", 50, "demo", ""⟩]

/-- A selected transaction used to exercise delete. -/
def selRow : Row := ⟨"2024-01-15", "income", "Salary", "pay", 3500, "demo", "n1"⟩

/-- A row the delete matcher rejects against selRow. -/
def otherRow : Row := ⟨"2024-02-15", "expense", "Food", "x", 7, "demo", ""⟩

/-- A row whose date string does not parse as a calendar date yet starts
with the year-month "2026-10". -/
def badDateRow : Row := ⟨"2026-10-99", "expense", "Food", "x", 5, "u", ""⟩

/-- A row with a canonically zero-padded date. -/
def rowPadded : Row := ⟨"2024-01-16", "income", "Salary", "y", 5, "u", ""⟩

/-- A row whose parseable date is not zero-padded, so its date string
compares above later padded dates. -/
def rowUnpadded : Row := ⟨"2024-1-15", "expense", "Food", "x", 5, "u", ""⟩

/-! ### Order facts for the code-point comparison behind the sort -/

theorem charToNat_inj {a b : Char} (h : a.toNat = b.toNat) : a = b := by
  apply Char.ext
  apply UInt32.ext
  exact h

theorem charListLt_irrefl : ∀ l : List Char, charListLt l l = false := by
  intro l
  induction l with
  | nil => rfl
  | cons a as ih => simp [charListLt, ih]

theorem charListLt_trans : ∀ (a b c : List Char),
    charListLt a b = true → charListLt b c = true → charListLt a c = true := by
  intro a
  induction a with
  | nil =>
    intro b c hab hbc
    cases b with
    | nil => simp [charListLt] at hab
    | cons y bs =>
      cases c with
      | nil => simp [charListLt] at hbc
      | cons z cs => simp [charListLt]
  | cons x as ih =>
    intro b c hab hbc
    cases b with
    | nil => simp [charListLt] at hab
    | cons y bs =>
      cases c with
      | nil => simp [charListLt] at hbc
      | cons z cs =>
        rcases Nat.lt_trichotomy x.toNat y.toNat with h1 | h1 | h1
        · rcases Nat.lt_trichotomy y.toNat z.toNat with h2 | h2 | h2
          · have h3 : x.toNat < z.toNat := Nat.lt_trans h1 h2
            simp [charListLt, h3]
          · have h2' := charToNat_inj h2
            subst h2'
            simp [charListLt, h1]
          · simp [charListLt, Nat.lt_asymm h2, h2] at hbc
        · have h1' := charToNat_inj h1
          subst h1'
          simp only [charListLt, Nat.lt_irrefl, if_false, if_neg] at hab
          rcases Nat.lt_trichotomy x.toNat z.toNat with h2 | h2 | h2
          · simp [charListLt, h2]
          · have h2' := charToNat_inj h2
            subst h2'
            simp only [charListLt, Nat.lt_irrefl, if_false, if_neg] at hbc ⊢
            exact ih bs cs hab hbc
          · simp [charListLt, Nat.lt_asymm h2, h2] at hbc
        · simp [charListLt, Nat.lt_asymm h1, h1] at hab

theorem charListLt_connex : ∀ (a b : List Char),
    charListLt a b = false → charListLt b a = false → a = b := by
  intro a
  induction a with
  | nil =>
    intro b hab _
    cases b with
    | nil => rfl
    | cons y bs => simp [charListLt] at hab
  | cons x as ih =>
    intro b hab hba
    cases b with
    | nil => simp [charListLt] at hba
    | cons y bs =>
      rcases Nat.lt_trichotomy x.toNat y.toNat with h1 | h1 | h1
      · simp [charListLt, h1] at hab
      · have h1' := charToNat_inj h1
        subst h1'
        simp only [charListLt, Nat.lt_irrefl, if_false, if_neg] at hab hba
        rw [ih bs hab hba]
      · simp [charListLt, Nat.lt_asymm h1, h1] at hba

theorem charListLt_asymm {a b : List Char} (h : charListLt a b = true) :
    charListLt b a = false := by
  by_contra hc
  have hba : charListLt b a = true := by
    cases hx : charListLt b a
    · exact absurd hx hc
    · rfl
  have := charListLt_trans a b a h hba
  rw [charListLt_irrefl] at this
  exact Bool.false_ne_true this

theorem charListLt_false_trans {a b c : List Char}
    (hab : charListLt a b = false) (hbc : charListLt b c = false) :
    charListLt a c = false := by
  cases hac : charListLt a c
  · rfl
  · exfalso
    cases hba : charListLt b a
    · have := charListLt_connex a b hab hba
      subst this
      exact Bool.false_ne_true (hbc ▸ hac)
    · have := charListLt_trans b a c hba hac
      exact Bool.false_ne_true (hbc ▸ this)

theorem strLt_irrefl (s : String) : strLt s s = false := charListLt_irrefl s.data

theorem strLt_asymm {s t : String} (h : strLt s t = true) : strLt t s = false :=
  charListLt_asymm h

theorem strLt_false_trans {s t u : String}
    (h1 : strLt s t = false) (h2 : strLt t u = false) : strLt s u = false :=
  charListLt_false_trans h1 h2

/-! ### The sort of load_transactions: a stable descending sort -/

theorem insertRowDesc_perm (a : Row) (l : List Row) :
    List.Perm (insertRowDesc a l) (a :: l) := by
  induction l with
  | nil => exact List.Perm.refl _
  | cons x xs ih =>
    simp only [insertRowDesc]
    split
    · exact ((ih.cons x).trans (List.Perm.swap a x xs))
    · exact List.Perm.refl _

theorem sortRowsDesc_perm (l : List Row) : List.Perm (sortRowsDesc l) l := by
  induction l with
  | nil => exact List.Perm.refl _
  | cons a as ih =>
    simp only [sortRowsDesc]
    exact (insertRowDesc_perm a (sortRowsDesc as)).trans (ih.cons a)

theorem mem_sortRowsDesc {r : Row} {l : List Row} :
    r ∈ sortRowsDesc l ↔ r ∈ l :=
  (sortRowsDesc_perm l).mem_iff

theorem insertRowDesc_pairwise {a : Row} {l : List Row}
    (h : l.Pairwise (fun p q => strLt p.date q.date = false)) :
    (insertRowDesc a l).Pairwise (fun p q => strLt p.date q.date = false) := by
  induction l with
  | nil => simp [insertRowDesc]
  | cons x xs ih =>
    rcases List.pairwise_cons.mp h with ⟨hx, hxs⟩
    simp only [insertRowDesc]
    split
    case isTrue hlt =>
      refine List.pairwise_cons.mpr ⟨?_, ih hxs⟩
      intro y hy
      rcases List.mem_cons.mp ((insertRowDesc_perm a xs).mem_iff.mp hy) with hy' | hy'
      · rw [hy']
        exact strLt_asymm hlt
      · exact hx y hy'
    case isFalse hge =>
      have hax : strLt a.date x.date = false := by
        cases hv : strLt a.date x.date
        · rfl
        · exact absurd hv hge
      refine List.pairwise_cons.mpr ⟨?_, h⟩
      intro y hy
      rcases List.mem_cons.mp hy with hy' | hy'
      · rw [hy']
        exact hax
      · exact strLt_false_trans hax (hx y hy')

theorem sortRowsDesc_pairwise (l : List Row) :
    (sortRowsDesc l).Pairwise (fun p q => strLt p.date q.date = false) := by
  induction l with
  | nil => simp [sortRowsDesc]
  | cons a as ih =>
    simp only [sortRowsDesc]
    exact insertRowDesc_pairwise ih

theorem filter_insertRowDesc (a : Row) (l : List Row) (d : String) :
    (insertRowDesc a l).filter (fun r => r.date == d) =
      if a.date == d then a :: l.filter (fun r => r.date == d)
      else l.filter (fun r => r.date == d) := by
  induction l with
  | nil => simp [insertRowDesc, List.filter_cons]
  | cons x xs ih =>
    simp only [insertRowDesc]
    split
    case isTrue hlt =>
      rw [List.filter_cons, ih, List.filter_cons]
      by_cases had : a.date = d
      · by_cases hxd : x.date = d
        · exfalso
          rw [had, ← hxd] at hlt
          rw [strLt_irrefl] at hlt
          exact Bool.false_ne_true hlt
        · simp [had, hxd]
      · by_cases hxd : x.date = d
        · simp [had, hxd]
        · simp [had, hxd]
    case isFalse hge =>
      rw [List.filter_cons]

theorem filter_sortRowsDesc (l : List Row) (d : String) :
    (sortRowsDesc l).filter (fun r => r.date == d) =
      l.filter (fun r => r.date == d) := by
  induction l with
  | nil => rfl
  | cons a as ih =>
    simp only [sortRowsDesc]
    rw [filter_insertRowDesc, List.filter_cons, ih]

/-! ### The delete rewrite loop -/

theorem deleteTransaction_go (sel : Row) :
    ∀ (log : List Row) (acc : List Row),
      log.foldl (fun acc r => if deleteMatches sel r then acc else acc ++ [r]) acc =
        acc ++ log.filter (fun r => !deleteMatches sel r) := by
  intro log
  induction log with
  | nil => intro acc; simp
  | cons r rs ih =>
    intro acc
    rw [List.foldl_cons, List.filter_cons]
    by_cases h : deleteMatches sel r
    · simp [h, ih]
    · simp [h, ih]

theorem deleteTransaction_eq_filter (sel : Row) (log : List Row) :
    deleteTransaction sel log = log.filter (fun r => !deleteMatches sel r) := by
  have h := deleteTransaction_go sel log []
  simpa [deleteTransaction] using h

/-! ### The defaultdict accumulation of per-category totals -/

theorem lookupTotal_addToTotals (k k2 : String) (v : ℚ) :
    ∀ l : List (String × ℚ),
      lookupTotal k (addToTotals k2 v l) =
        lookupTotal k l + (if k2 == k then v else 0) := by
  intro l
  induction l with
  | nil =>
    by_cases h : k2 = k
    · simp [addToTotals, lookupTotal, h]
    · simp [addToTotals, lookupTotal, h]
  | cons p rest ih =>
    obtain ⟨k3, v3⟩ := p
    by_cases h3 : k3 = k2
    · subst h3
      by_cases hk : k3 = k
      · simp [addToTotals, lookupTotal, hk, add_comm, add_assoc, add_left_comm]
      · simp [addToTotals, lookupTotal, hk]
    · by_cases hk : k3 = k
      · subst hk
        have h2 : ¬(k2 = k3) := fun he => h3 he.symm
        simp [addToTotals, lookupTotal, h3, h2, ih]
      · simp [addToTotals, lookupTotal, h3, hk, ih]

theorem keys_addToTotals (k : String) (v : ℚ) :
    ∀ l : List (String × ℚ),
      (addToTotals k v l).map Prod.fst =
        if (l.map Prod.fst).contains k then l.map Prod.fst
        else l.map Prod.fst ++ [k] := by
  intro l
  induction l with
  | nil => simp [addToTotals]
  | cons p rest ih =>
    obtain ⟨k3, v3⟩ := p
    by_cases h3 : k3 = k
    · subst h3
      simp [addToTotals]
    · have hk3 : (k == k3) = false := by
        rw [beq_eq_false_iff_ne]
        exact fun he => h3 he.symm
      simp only [addToTotals, List.map_cons, List.contains_cons, ih, hk3,
        Bool.false_or, h3, if_false, if_neg, beq_iff_eq]
      by_cases hc : (rest.map Prod.fst).contains k
      · rw [if_pos hc, if_pos hc]
      · rw [if_neg hc, if_neg hc]
        simp

theorem mem_lookupTotal (k : String) (v : ℚ) :
    ∀ l : List (String × ℚ), (l.map Prod.fst).Nodup → (k, v) ∈ l →
      lookupTotal k l = v := by
  intro l
  induction l with
  | nil => intro _ h; cases h
  | cons p rest ih =>
    intro hnd hm
    obtain ⟨k3, v3⟩ := p
    rcases List.mem_cons.mp hm with he | hm'
    · injection he with h1 h2
      simp [lookupTotal, h1.symm, h2]
    · have hk3 : k3 ≠ k := by
        intro he
        subst he
        have : k3 ∈ rest.map Prod.fst := List.mem_map.mpr ⟨(k3, v), hm', rfl⟩
        exact (List.nodup_cons.mp (by simpa using hnd)).1 this
      have hnd' : (rest.map Prod.fst).Nodup := (List.nodup_cons.mp (by simpa using hnd)).2
      simp [lookupTotal, hk3, ih hnd' hm']

theorem nodup_keys_addToTotals (k : String) (v : ℚ) (l : List (String × ℚ))
    (h : (l.map Prod.fst).Nodup) : ((addToTotals k v l).map Prod.fst).Nodup := by
  rw [keys_addToTotals]
  by_cases hc : (l.map Prod.fst).contains k
  · rw [if_pos hc]
    exact h
  · rw [if_neg hc]
    have hk : k ∉ l.map Prod.fst := by simpa using hc
    refine List.Nodup.append h (List.nodup_singleton k) ?_
    intro x hx hxk
    rw [List.mem_singleton] at hxk
    subst hxk
    exact hk hx

/-! ### The update_balance_cards loop -/

theorem balance_foldl_fst (u : String) :
    ∀ (log : List Row) (acc : ℚ × ℚ),
      (log.foldl (balanceStep u) acc).1 =
        acc.1 + ((log.filter (isOwnerIncome u)).map Row.amount).sum := by
  intro log
  induction log with
  | nil => intro acc; simp
  | cons r rs ih =>
    intro acc
    rw [List.foldl_cons, ih, List.filter_cons]
    by_cases hu : r.user == u
    · by_cases hi : lower r.type == "income"
      · simp [balanceStep, hu, hi, isOwnerIncome]
        ring
      · simp [balanceStep, hu, hi, isOwnerIncome]
    · simp [balanceStep, hu, isOwnerIncome]

theorem balance_foldl_snd (u : String) :
    ∀ (log : List Row) (acc : ℚ × ℚ),
      (log.foldl (balanceStep u) acc).2 =
        acc.2 + ((log.filter (fun r => r.user == u && !(lower r.type == "income"))).map
          Row.amount).sum := by
  intro log
  induction log with
  | nil => intro acc; simp
  | cons r rs ih =>
    intro acc
    rw [List.foldl_cons, ih, List.filter_cons]
    by_cases hu : r.user == u
    · by_cases hi : lower r.type == "income"
      · simp [balanceStep, hu, hi]
      · simp [balanceStep, hu, hi]
        ring
    · simp [balanceStep, hu]

/-! ### The update_quick_stats loop -/

theorem statsStep_totalTransactions (u cm : String) (acc : StatsAcc) (r : Row) :
    (statsStep u cm acc r).totalTransactions =
      acc.totalTransactions + (if r.user == u then 1 else 0) := by
  by_cases hu : r.user == u <;> by_cases he : lower r.type == "expense" <;>
    by_cases hs : strStarts cm r.date <;> simp [statsStep, hu, he, hs]

theorem statsStep_totalExpense (u cm : String) (acc : StatsAcc) (r : Row) :
    (statsStep u cm acc r).totalExpense =
      acc.totalExpense + (if isOwnerExpense u r then r.amount else 0) := by
  by_cases hu : r.user == u <;> by_cases he : lower r.type == "expense" <;>
    by_cases hs : strStarts cm r.date <;> simp [statsStep, isOwnerExpense, hu, he, hs]

theorem statsStep_expenseCount (u cm : String) (acc : StatsAcc) (r : Row) :
    (statsStep u cm acc r).expenseCount =
      acc.expenseCount + (if isOwnerExpense u r then 1 else 0) := by
  by_cases hu : r.user == u <;> by_cases he : lower r.type == "expense" <;>
    by_cases hs : strStarts cm r.date <;> simp [statsStep, isOwnerExpense, hu, he, hs]

theorem statsStep_monthlyTotal (u cm : String) (acc : StatsAcc) (r : Row) :
    (statsStep u cm acc r).monthlyTotal =
      acc.monthlyTotal +
        (if r.user == u && strStarts cm r.date && lower r.type == "expense" then
          r.amount else 0) := by
  by_cases hu : r.user == u <;> by_cases he : lower r.type == "expense" <;>
    by_cases hs : strStarts cm r.date <;> simp [statsStep, hu, he, hs]

theorem statsStep_categoryTotals (u cm : String) (acc : StatsAcc) (r : Row) :
    (statsStep u cm acc r).categoryTotals =
      if isOwnerExpense u r then addToTotals r.category r.amount acc.categoryTotals
      else acc.categoryTotals := by
  by_cases hu : r.user == u <;> by_cases he : lower r.type == "expense" <;>
    by_cases hs : strStarts cm r.date <;> simp [statsStep, isOwnerExpense, hu, he, hs]

theorem stats_foldl_totalExpense (u cm : String) :
    ∀ (log : List Row) (acc : StatsAcc),
      (log.foldl (statsStep u cm) acc).totalExpense =
        acc.totalExpense + ((log.filter (isOwnerExpense u)).map Row.amount).sum := by
  intro log
  induction log with
  | nil => intro acc; simp
  | cons r rs ih =>
    intro acc
    rw [List.foldl_cons, ih, statsStep_totalExpense, List.filter_cons]
    by_cases he : isOwnerExpense u r
    · simp [he]
      ring
    · simp [he]

theorem stats_foldl_expenseCount (u cm : String) :
    ∀ (log : List Row) (acc : StatsAcc),
      (log.foldl (statsStep u cm) acc).expenseCount =
        acc.expenseCount + (log.filter (isOwnerExpense u)).length := by
  intro log
  induction log with
  | nil => intro acc; simp
  | cons r rs ih =>
    intro acc
    rw [List.foldl_cons, ih, statsStep_expenseCount, List.filter_cons]
    by_cases he : isOwnerExpense u r
    · simp [he]
      omega
    · simp [he]

theorem stats_foldl_monthlyTotal (u cm : String) :
    ∀ (log : List Row) (acc : StatsAcc),
      (log.foldl (statsStep u cm) acc).monthlyTotal =
        acc.monthlyTotal +
          ((log.filter (fun r => r.user == u && strStarts cm r.date &&
            lower r.type == "expense")).map Row.amount).sum := by
  intro log
  induction log with
  | nil => intro acc; simp
  | cons r rs ih =>
    intro acc
    rw [List.foldl_cons, ih, statsStep_monthlyTotal, List.filter_cons]
    by_cases he : r.user == u && strStarts cm r.date && lower r.type == "expense"
    · simp [he]
      ring
    · simp [he]

theorem stats_foldl_lookupTotal (u cm k : String) :
    ∀ (log : List Row) (acc : StatsAcc),
      lookupTotal k (log.foldl (statsStep u cm) acc).categoryTotals =
        lookupTotal k acc.categoryTotals +
          ((log.filter (fun r => isOwnerExpense u r && r.category == k)).map
            Row.amount).sum := by
  intro log
  induction log with
  | nil => intro acc; simp
  | cons r rs ih =>
    intro acc
    rw [List.foldl_cons, ih, List.filter_cons]
    by_cases he : isOwnerExpense u r
    · by_cases hc : r.category == k
      · simp only [statsStep_categoryTotals, he, if_pos, if_true,
          lookupTotal_addToTotals, hc, Bool.and_self]
        simp [he, hc]
        ring
      · simp only [statsStep_categoryTotals, he, if_pos, if_true,
          lookupTotal_addToTotals, hc]
        simp [he, hc]
    · simp [statsStep_categoryTotals, he]

theorem stats_foldl_keys (u cm : String) :
    ∀ (log : List Row) (acc : StatsAcc),
      (log.foldl (statsStep u cm) acc).categoryTotals.map Prod.fst =
        log.foldl
          (fun ks r =>
            if isOwnerExpense u r then
              (if ks.contains r.category then ks else ks ++ [r.category])
            else ks)
          (acc.categoryTotals.map Prod.fst) := by
  intro log
  induction log with
  | nil => intro acc; rfl
  | cons r rs ih =>
    intro acc
    rw [List.foldl_cons, List.foldl_cons, ih]
    by_cases he : isOwnerExpense u r
    · rw [statsStep_categoryTotals]
      rw [if_pos he, if_pos he, keys_addToTotals]
    · rw [statsStep_categoryTotals]
      rw [if_neg he, if_neg he]

theorem quickStats_keys (u cm : String) (log : List Row) :
    (quickStats u cm log).categoryTotals.map Prod.fst = specCatOrder u log := by
  rw [quickStats, stats_foldl_keys]
  rfl

theorem stats_foldl_nodup_keys (u cm : String) :
    ∀ (log : List Row) (acc : StatsAcc),
      (acc.categoryTotals.map Prod.fst).Nodup →
        ((log.foldl (statsStep u cm) acc).categoryTotals.map Prod.fst).Nodup := by
  intro log
  induction log with
  | nil => intro acc h; exact h
  | cons r rs ih =>
    intro acc h
    rw [List.foldl_cons]
    refine ih _ ?_
    rw [statsStep_categoryTotals]
    by_cases he : isOwnerExpense u r
    · rw [if_pos he]
      exact nodup_keys_addToTotals _ _ _ h
    · rw [if_neg he]
      exact h

/-! ### The actual_spending pass of the budget views -/

theorem actualSpending_foldl (u k : String) :
    ∀ (log : List Row) (acc : List (String × ℚ)),
      lookupTotal k (log.foldl
          (fun acc r =>
            if r.user == u && lower r.type == "expense" then
              addToTotals r.category r.amount acc
            else acc) acc) =
        lookupTotal k acc +
          ((log.filter (fun r => isOwnerExpense u r && r.category == k)).map
            Row.amount).sum := by
  intro log
  induction log with
  | nil => intro acc; simp
  | cons r rs ih =>
    intro acc
    rw [List.foldl_cons, ih, List.filter_cons]
    by_cases he : r.user == u && lower r.type == "expense"
    · by_cases hc : r.category == k
      · rw [if_pos he, lookupTotal_addToTotals]
        have : isOwnerExpense u r = true := he
        simp [this, hc]
        ring
      · rw [if_pos he, lookupTotal_addToTotals]
        have : isOwnerExpense u r = true := he
        simp [this, hc]
    · rw [if_neg he]
      have : isOwnerExpense u r = false := by
        rw [isOwnerExpense]
        exact Bool.not_eq_true _ ▸ (by simpa using he)
      simp [this]

theorem actualSpending_lookup (u k : String) (log : List Row) :
    lookupTotal k (actualSpending u log) = specCatSum u k log := by
  rw [actualSpending, actualSpending_foldl]
  simp [specCatSum, lookupTotal]

/-! ### Python max over the category totals -/

theorem maxGo_spec : ∀ (l : List (String × ℚ)) (best : String) (bv : ℚ),
    (maxGo best bv l = best ∧ ∀ p ∈ l, p.2 ≤ bv) ∨
    (∃ pre v post, l = pre ++ (maxGo best bv l, v) :: post ∧ bv < v ∧
      (∀ p ∈ pre, p.2 < v) ∧ (∀ p ∈ post, p.2 ≤ v)) := by
  intro l
  induction l with
  | nil =>
    intro best bv
    left
    exact ⟨rfl, by simp⟩
  | cons p rest ih =>
    intro best bv
    obtain ⟨k, v0⟩ := p
    by_cases h : bv < v0
    · have hm : maxGo best bv ((k, v0) :: rest) = maxGo k v0 rest := by
        simp [maxGo, h]
      rcases ih k v0 with ⟨heq, hall⟩ | ⟨pre, v, post, hdec, hlt, hpre, hpost⟩
      · right
        refine ⟨[], v0, rest, ?_, h, by simp, hall⟩
        rw [hm, heq]
        simp
      · right
        refine ⟨(k, v0) :: pre, v, post, ?_, lt_trans h hlt, ?_, hpost⟩
        · rw [hm, List.cons_append]
          exact congrArg (List.cons (k, v0)) hdec
        · intro q hq
          rcases List.mem_cons.mp hq with hq' | hq'
          · rw [hq']
            exact hlt
          · exact hpre q hq'
    · have hm : maxGo best bv ((k, v0) :: rest) = maxGo best bv rest := by
        simp [maxGo, h]
      have hle : v0 ≤ bv := not_lt.mp h
      rcases ih best bv with ⟨heq, hall⟩ | ⟨pre, v, post, hdec, hlt, hpre, hpost⟩
      · left
        refine ⟨by rw [hm, heq], ?_⟩
        intro q hq
        rcases List.mem_cons.mp hq with hq' | hq'
        · rw [hq']
          exact hle
        · exact hall q hq'
      · right
        refine ⟨(k, v0) :: pre, v, post, ?_, hlt, ?_, hpost⟩
        · rw [hm, List.cons_append]
          exact congrArg (List.cons (k, v0)) hdec
        · intro q hq
          rcases List.mem_cons.mp hq with hq' | hq'
          · rw [hq']
            exact lt_of_le_of_lt hle hlt
          · exact hpre q hq'

/-! ### The date comparisons of the filtered view -/

theorem tripleLe_eq_not_lt (a b : Nat × Nat × Nat) :
    tripleLe a b = !tripleLt b a := by
  obtain ⟨a1, a2, a3⟩ := a
  obtain ⟨b1, b2, b3⟩ := b
  apply Bool.eq_iff_iff.mpr
  simp only [tripleLe, tripleLt, Bool.or_eq_true, Bool.and_eq_true,
    decide_eq_true_eq, beq_iff_eq, Prod.mk.injEq, Bool.not_eq_true',
    Bool.or_eq_false_iff, Bool.and_eq_false_iff, decide_eq_false_iff_not,
    beq_eq_false_iff_ne, ne_eq]
  constructor
  · intro hx
    omega
  · intro hx
    omega

theorem passesDateFilter_eq_specInRange {df dt d : String}
    (hd : (parseDate d).isSome = true)
    (hdf : df = "" ∨ (parseDate df).isSome = true)
    (hdt : dt = "" ∨ (parseDate dt).isSome = true) :
    passesDateFilter df dt d = specInRange df dt d := by
  obtain ⟨td, htd⟩ := Option.isSome_iff_exists.mp hd
  rcases hdf with hdf' | hdf'
  · subst hdf'
    rcases hdt with hdt' | hdt'
    · subst hdt'
      simp [passesDateFilter, specInRange, htd]
    · obtain ⟨toD, htoD⟩ := Option.isSome_iff_exists.mp hdt'
      simp [passesDateFilter, specInRange, htd, htoD, tripleLe_eq_not_lt]
  · obtain ⟨fd, hfd⟩ := Option.isSome_iff_exists.mp hdf'
    rcases hdt with hdt' | hdt'
    · subst hdt'
      simp [passesDateFilter, specInRange, htd, hfd, tripleLe_eq_not_lt]
    · obtain ⟨toD, htoD⟩ := Option.isSome_iff_exists.mp hdt'
      simp [passesDateFilter, specInRange, htd, hfd, htoD, tripleLe_eq_not_lt]

/-! ### The filtered view as a whole -/

theorem rowPasses_noSearch (u df dt : String) (r : Row) :
    rowPasses u "" "All" df dt r =
      (r.user == u && passesDateFilter df dt r.date) := by
  have h1 : lower "" = "" := rfl
  simp [rowPasses, h1]

theorem mem_loadTransactions {u s t df dt : String} {log : List Row} {r : Row} :
    r ∈ loadTransactions u s t df dt log ↔
      r ∈ log ∧ rowPasses u s t df dt r = true := by
  rw [loadTransactions]
  rw [mem_sortRowsDesc]
  exact List.mem_filter

/-! ### The claims -/

/-- C1 (counterexample): when the log holds two identical copies of the
selected transaction, delete_transaction removes both of them, not
exactly one (the rewrite keeps only rows the matcher rejects). -/
theorem claim_C1_counterexample :
    deleteTransaction selRow [selRow, selRow] = [] ∧
    [selRow, selRow].length - (deleteTransaction selRow [selRow, selRow]).length ≠ 1 := by
  decide

/-- C1 (amended): delete removes every persisted row agreeing with the
selected record on date, type, category, description and numeric amount
(owner and notes are not compared), keeps all other rows unchanged and in
order, and in particular removes exactly one record when exactly one row
matches. -/
theorem claim_C1_amended (sel : Row) (log : List Row) :
    deleteTransaction sel log = log.filter (fun r => !deleteMatches sel r) ∧
    (∀ r ∈ deleteTransaction sel log, deleteMatches sel r = false) ∧
    (∀ r : Row, deleteMatches sel r = false →
      (deleteTransaction sel log).count r = log.count r) ∧
    (deleteTransaction sel log).length +
      (log.filter (fun r => deleteMatches sel r)).length = log.length ∧
    (deleteTransaction sel log).Sublist log := by
  refine ⟨deleteTransaction_eq_filter sel log, ?_, ?_, ?_, ?_⟩
  · intro r hr
    rw [deleteTransaction_eq_filter] at hr
    have h := (List.mem_filter.mp hr).2
    simpa using h
  · intro r hr
    rw [deleteTransaction_eq_filter]
    exact List.count_filter (by simp [hr])
  · rw [deleteTransaction_eq_filter]
    induction log with
    | nil => rfl
    | cons r rs ih =>
      by_cases h : deleteMatches sel r
      · simp [List.filter_cons, h]
        omega
      · simp [List.filter_cons, h]
        omega
  · rw [deleteTransaction_eq_filter]
    exact List.filter_sublist log

/-- C1 (witness): the amended theorem at a concrete log where one row
matches and one does not. -/
theorem claim_C1_amended_witness :
    deleteMatches selRow otherRow = false ∧
    (deleteTransaction selRow [otherRow, selRow]).count otherRow =
      [otherRow, selRow].count otherRow :=
  ⟨by decide,
    (claim_C1_amended selRow [otherRow, selRow]).2.2.1 otherRow (by decide)⟩

/-- C3: exporting the records of the current owner and importing that file
back as the same owner reproduces, in order, the same list (hence
multiset) of (date, kind, category, description, amount) tuples, and the
reported count of imported rows equals the number of exported records. -/
theorem claim_C3 (u : String) (log : List Row) :
    (importData u (exportCSV u log)).map quint =
      (log.filter (fun r => r.user == u)).map quint ∧
    (importData u (exportCSV u log)).length =
      (log.filter (fun r => r.user == u)).length := by
  constructor
  · simp only [importData, exportCSV, List.map_map]
    rfl
  · simp [importData, exportCSV]

/-- C10: the CSV export writes the six-column header ending in Notes, but
the sixth value of every line is the owner of the record; the notes column
never influences the exported file, and import reads the sixth value back
as the notes field. -/
theorem claim_C10 :
    exportHeader = ["Date", "Type", "Category", "Description", "Amount", "Notes"] ∧
    (∀ (u : String) (log : List Row),
      (exportCSV u log).map ExportRow.sixth =
        (log.filter (fun r => r.user == u)).map Row.user) ∧
    (∀ (u : String) (log : List Row) (f : Row → String),
      exportCSV u (log.map (fun r => { r with notes := f r })) = exportCSV u log) ∧
    (∀ (u : String) (rows : List ExportRow),
      (importData u rows).map Row.notes = rows.map ExportRow.sixth) := by
  refine ⟨rfl, ?_, ?_, ?_⟩
  · intro u log
    simp only [exportCSV, List.map_map]
    rfl
  · intro u log f
    rw [exportCSV, exportCSV, List.filter_map]
    rw [List.map_map]
    rfl
  · intro u rows
    simp only [importData, List.map_map]
    rfl

/-- C9: the average expense equals total expense over expense count when
there is at least one expense record and 0 otherwise; the guard makes the
computation total, so no division error can occur. -/
theorem claim_C9 (u cm : String) (log : List Row) :
    avgExpense u cm log =
      (if 0 < specExpenseCount u log then
        specExpenseTotal u log / (specExpenseCount u log : ℚ) else 0) ∧
    (specExpenseCount u log = 0 → avgExpense u cm log = 0) := by
  have hc := stats_foldl_expenseCount u cm log ⟨0, 0, 0, [], 0⟩
  have ht := stats_foldl_totalExpense u cm log ⟨0, 0, 0, [], 0⟩
  have key : avgExpense u cm log =
      (if 0 < specExpenseCount u log then
        specExpenseTotal u log / (specExpenseCount u log : ℚ) else 0) := by
    simp only [avgExpense, quickStats]
    rw [hc, ht]
    simp [specExpenseCount, specExpenseTotal]
  refine ⟨key, ?_⟩
  intro h0
  rw [key, h0]
  simp

/-- C9 (witness): a log with no expense records gives average expense 0. -/
theorem claim_C9_witness :
    specExpenseCount "demo" [demoIncomeRow] = 0 ∧
    avgExpense "demo" "2024-01" [demoIncomeRow] = 0 :=
  ⟨by decide, (claim_C9 "demo" "2024-01" [demoIncomeRow]).2 (by decide)⟩

/-- C2: over any snapshot whose owner records are income or expense
records, the income total is the sum of the owner income amounts, the
expense total the sum of the owner expense amounts, and the balance
their difference; on the two-record demo log of the spec the totals are
3500.00, 85.50 and 3414.50. -/
theorem claim_C2 (u : String) (log : List Row)
    (h : ∀ r ∈ log, r.user = u →
      lower r.type = "income" ∨ lower r.type = "expense") :
    balanceCards u log =
      (specIncomeTotal u log, specExpenseTotal u log,
        specIncomeTotal u log - specExpenseTotal u log) ∧
    balanceCards "demo" demoLog = (3500, 85.5, 3414.5) := by
  constructor
  · have h1 := balance_foldl_fst u log (0, 0)
    have h2 := balance_foldl_snd u log (0, 0)
    have hfe : log.filter (fun r => r.user == u && !(lower r.type == "income")) =
        log.filter (isOwnerExpense u) := by
      apply List.filter_congr
      intro r hr
      by_cases hu : r.user = u
      · rcases h r hr hu with hi | he
        · simp [isOwnerExpense, hu, hi]
        · simp [isOwnerExpense, hu, he]
      · have hb : (r.user == u) = false := beq_eq_false_iff_ne.mpr hu
        simp [isOwnerExpense, hb]
    rw [hfe] at h2
    simp only [balanceCards]
    rw [h1, h2]
    simp [specIncomeTotal, specExpenseTotal]
  · norm_num +decide [balanceCards, balanceStep, lower, demoLog,
      demoIncomeRow, demoExpenseRow]

/-- C2 (witness): the general totals equation applied to the demo log,
whose records all carry an income or expense kind. -/
theorem claim_C2_witness :
    (∀ r ∈ demoLog, r.user = "demo" →
      lower r.type = "income" ∨ lower r.type = "expense") ∧
    balanceCards "demo" demoLog =
      (specIncomeTotal "demo" demoLog, specExpenseTotal "demo" demoLog,
        specIncomeTotal "demo" demoLog - specExpenseTotal "demo" demoLog) :=
  ⟨by decide, (claim_C2 "demo" demoLog (by decide)).1⟩

/-- C4: when the date of every owner record parses and each non-empty bound
parses, the filtered view (no text search, type filter All) holds exactly
the owner records whose date lies in the inclusive range, an empty
bound imposing no restriction, and with both bounds empty exactly the
records of the owner. -/
theorem claim_C4 (u df dt : String) (log : List Row)
    (hlog : ∀ r ∈ log, r.user = u → (parseDate r.date).isSome = true)
    (hdf : df = "" ∨ (parseDate df).isSome = true)
    (hdt : dt = "" ∨ (parseDate dt).isSome = true) :
    (∀ r : Row, r ∈ loadTransactions u "" "All" df dt log ↔
      (r ∈ log ∧ r.user = u ∧ specInRange df dt r.date = true)) ∧
    (df = "" → dt = "" → ∀ r : Row,
      r ∈ loadTransactions u "" "All" df dt log ↔ (r ∈ log ∧ r.user = u)) := by
  have main : ∀ r : Row, r ∈ loadTransactions u "" "All" df dt log ↔
      (r ∈ log ∧ r.user = u ∧ specInRange df dt r.date = true) := by
    intro r
    rw [mem_loadTransactions, rowPasses_noSearch]
    constructor
    · rintro ⟨hm, hp⟩
      rw [Bool.and_eq_true] at hp
      obtain ⟨hu, hdate⟩ := hp
      have hu' : r.user = u := by simpa using hu
      refine ⟨hm, hu', ?_⟩
      rw [← passesDateFilter_eq_specInRange (hlog r hm hu') hdf hdt]
      exact hdate
    · rintro ⟨hm, hu, hs⟩
      refine ⟨hm, ?_⟩
      rw [Bool.and_eq_true]
      refine ⟨by simp [hu], ?_⟩
      rw [passesDateFilter_eq_specInRange (hlog r hm hu) hdf hdt]
      exact hs
  refine ⟨main, ?_⟩
  intro h1 h2 r
  subst h1
  subst h2
  rw [main r]
  constructor
  · rintro ⟨a, b, _⟩
    exact ⟨a, b⟩
  · rintro ⟨a, b⟩
    exact ⟨a, b, by simp [specInRange]⟩

/-- C4 (witness): the range equivalence at the demo log with the bounds
2024-01-01 to 2024-01-15, instantiated at the demo expense record. -/
theorem claim_C4_witness :
    (∀ r ∈ demoLog, r.user = "demo" → (parseDate r.date).isSome = true) ∧
    (parseDate "2024-01-01").isSome = true ∧
    (parseDate "2024-01-15").isSome = true ∧
    (demoExpenseRow ∈
        loadTransactions "demo" "" "All" "2024-01-01" "2024-01-15" demoLog ↔
      (demoExpenseRow ∈ demoLog ∧ demoExpenseRow.user = "demo" ∧
        specInRange "2024-01-01" "2024-01-15" demoExpenseRow.date = true)) :=
  ⟨by decide, by decide, by decide,
    (claim_C4 "demo" "2024-01-01" "2024-01-15" demoLog (by decide)
      (Or.inr (by decide)) (Or.inr (by decide))).1 demoExpenseRow⟩

/-- C5 (counterexample): a record whose date string "2026-10-99" fails to
parse is still counted in the current-month expense total for 2026-10,
because the month test is a string-prefix check, not a parse. -/
theorem claim_C5_counterexample :
    parseDate badDateRow.date = none ∧
    (quickStats "u" "2026-10" [badDateRow]).monthlyTotal = 5 := by
  constructor
  · decide
  · norm_num +decide [quickStats, statsStep, lower, strStarts, listStarts,
      badDateRow]

/-- C5 (amended): a record whose date fails to parse is excluded from
every filtered view, but the current-month expense total tests the raw
date string for the year-month prefix, so unparseable dates carrying that
prefix are still summed. -/
theorem claim_C5_amended (u s t df dt cm : String) (log : List Row) :
    (∀ r : Row, parseDate r.date = none →
      r ∉ loadTransactions u s t df dt log) ∧
    (quickStats u cm log).monthlyTotal = specMonthlyTotal u cm log := by
  constructor
  · intro r hnone hmem
    have hp := (mem_loadTransactions.mp hmem).2
    simp [rowPasses, passesDateFilter, hnone] at hp
  · have hm := stats_foldl_monthlyTotal u cm log ⟨0, 0, 0, [], 0⟩
    simp only [quickStats]
    rw [hm]
    simp [specMonthlyTotal]

/-- C5 (witness): the unparseable-date record is absent from an
unrestricted filtered view over a log that contains it. -/
theorem claim_C5_amended_witness :
    parseDate badDateRow.date = none ∧
    badDateRow ∉ loadTransactions "u" "" "All" "" "" [badDateRow] :=
  ⟨by decide,
    (claim_C5_amended "u" "" "All" "" "" "2026-10" [badDateRow]).1
      badDateRow (by decide)⟩

/-- C6 (counterexample): the view sorts by the raw date string, so the
parseable but unpadded date 2024-1-15 is listed before 2024-01-16 even
though it is the strictly earlier calendar date — the view is not ordered
by date descending. -/
theorem claim_C6_counterexample :
    loadTransactions "u" "" "All" "" "" [rowPadded, rowUnpadded] =
      [rowUnpadded, rowPadded] ∧
    parseDate rowUnpadded.date = some (2024, 1, 15) ∧
    parseDate rowPadded.date = some (2024, 1, 16) ∧
    tripleLt (2024, 1, 15) (2024, 1, 16) = true := by
  decide

/-- C6 (amended): every filtered view is sorted by the date string in
descending code-point order (which coincides with date order for
canonically zero-padded dates), rows with equal date strings keep their
original file order, and the view is a permutation of the filtered log. -/
theorem claim_C6_amended (u s t df dt : String) (log : List Row) :
    (loadTransactions u s t df dt log).Pairwise
      (fun p q => strLt p.date q.date = false) ∧
    (∀ d : String,
      (loadTransactions u s t df dt log).filter (fun r => r.date == d) =
        (log.filter (rowPasses u s t df dt)).filter (fun r => r.date == d)) ∧
    List.Perm (loadTransactions u s t df dt log)
      (log.filter (rowPasses u s t df dt)) := by
  refine ⟨?_, ?_, ?_⟩
  · rw [loadTransactions]
    exact sortRowsDesc_pairwise _
  · intro d
    rw [loadTransactions, filter_sortRowsDesc]
  · rw [loadTransactions]
    exact sortRowsDesc_perm _

/-- C7: when the owner has at least one expense record, the top category
sits in the category-totals list with all earlier entries strictly below
its value and all later entries at most it (the first-encountered maximum
wins ties), its value is the summed expense amount of that category, and
the keys of the list are exactly the expense categories of the owner in
first-encounter order. -/
theorem claim_C7 (u cm : String) (log : List Row)
    (h : (quickStats u cm log).categoryTotals ≠ []) :
    (∃ pre v post,
      (quickStats u cm log).categoryTotals =
        pre ++ (topCategory u cm log, v) :: post ∧
      (∀ p ∈ pre, p.2 < v) ∧ (∀ p ∈ post, p.2 ≤ v) ∧
      v = specCatSum u (topCategory u cm log) log) ∧
    (quickStats u cm log).categoryTotals.map Prod.fst = specCatOrder u log := by
  refine ⟨?_, quickStats_keys u cm log⟩
  have hnd : ((quickStats u cm log).categoryTotals.map Prod.fst).Nodup :=
    stats_foldl_nodup_keys u cm log _ (by simp)
  have hlook : ∀ k v, (k, v) ∈ (quickStats u cm log).categoryTotals →
      v = specCatSum u k log := by
    intro k v hm
    have h1 := mem_lookupTotal k v _ hnd hm
    have h2 := stats_foldl_lookupTotal u cm k log ⟨0, 0, 0, [], 0⟩
    rw [quickStats] at h1
    rw [h2] at h1
    rw [← h1]
    simp [specCatSum, lookupTotal]
  cases hcts : (quickStats u cm log).categoryTotals with
  | nil => exact absurd hcts h
  | cons p rest =>
    obtain ⟨k0, v0⟩ := p
    have htop : topCategory u cm log = maxGo k0 v0 rest := by
      rw [topCategory, hcts]
    rcases maxGo_spec rest k0 v0 with ⟨heq, hall⟩ | ⟨pre, v, post, hdec, hlt, hpre, hpost⟩
    · refine ⟨[], v0, rest, ?_, by simp, hall, ?_⟩
      · rw [htop, heq]
        rfl
      · refine hlook _ _ ?_
        rw [hcts, htop, heq]
        exact List.mem_cons_self _ _
    · refine ⟨(k0, v0) :: pre, v, post, ?_, ?_, hpost, ?_⟩
      · rw [htop, List.cons_append]
        exact congrArg (List.cons (k0, v0)) hdec
      · intro q hq
        rcases List.mem_cons.mp hq with hq' | hq'
        · rw [hq']
          exact hlt
        · exact hpre q hq'
      · refine hlook _ _ ?_
        rw [hcts, htop]
        have hm2 := List.mem_append_right pre
          (List.mem_cons_self (maxGo k0 v0 rest, v) post)
        rw [← hdec] at hm2
        exact List.mem_cons_of_mem _ hm2

/-- C7 (witness): categories A and B each totalling 50.00, inserted in
that order, give top category A. -/
theorem claim_C7_witness :
    (quickStats "demo" "2024-01" tieLog).categoryTotals ≠ [] ∧
    topCategory "demo" "2024-01" tieLog = "A" ∧
    (∃ pre v post,
      (quickStats "demo" "2024-01" tieLog).categoryTotals =
        pre ++ (topCategory "demo" "2024-01" tieLog, v) :: post ∧
      (∀ p ∈ pre, p.2 < v) ∧ (∀ p ∈ post, p.2 ≤ v) ∧
      v = specCatSum "demo" (topCategory "demo" "2024-01" tieLog) tieLog) :=
  ⟨by decide, by decide,
    (claim_C7 "demo" "2024-01" tieLog (by decide)).1⟩

/-- C8: each budgeted (category, limit) pair yields a progress entry whose
actual is the summed expense amount of the category (0 when absent) and whose
percentage is min(actual/limit*100, 100) for a positive limit and 0
otherwise; the performance chart reports the same actuals unclamped; on
the scenario of the spec the entry for Food with limit 400 carries the raw
actual 85.50 and percentage 21.375. -/
theorem claim_C8 (u : String) (log : List Row) (budgets : List (String × ℚ))
    (c : String) (b : ℚ) (h : (c, b) ∈ budgets) :
    ((c, b, specCatSum u c log,
      if 0 < b then min (specCatSum u c log / b * 100) 100 else 0) ∈
        budgetProgress u log budgets) ∧
    chartActualAmounts u log budgets =
      budgets.map (fun p => specCatSum u p.1 log) ∧
    budgetProgress "demo" demoLog [("Food", 400)] =
      [("Food", 400, 85.5, 21.375)] := by
  refine ⟨?_, ?_, ?_⟩
  · rw [budgetProgress]
    apply List.mem_map.mpr
    refine ⟨(c, b), h, ?_⟩
    simp [actualSpending_lookup, budgetPercentage]
  · simp only [chartActualAmounts, actualSpending_lookup]
  · norm_num +decide [budgetProgress, actualSpending, addToTotals, lower,
      lookupTotal, budgetPercentage, demoLog, demoIncomeRow, demoExpenseRow,
      min_def]

/-- C8 (witness): the progress equation applied to the Food budget of the
scenario of the spec. -/
theorem claim_C8_witness :
    (("Food", (400 : ℚ)) ∈ [("Food", (400 : ℚ))]) ∧
    ((("Food" : String), (400 : ℚ), specCatSum "demo" "Food" demoLog,
      if (0 : ℚ) < 400 then
        min (specCatSum "demo" "Food" demoLog / 400 * 100) 100 else 0) ∈
      budgetProgress "demo" demoLog [("Food", 400)]) :=
  ⟨by decide,
    (claim_C8 "demo" demoLog [("Food", 400)] "Food" 400 (by decide)).1⟩

end BudgetTracker
